import Mathlib

/-!
Verification development for the `raftstore` peer controller of the
coocood/faketikv repository.  The Go sources under `raftstore/peer.go` and
`raftstore/read.go` are shallowly embedded below: pure decision logic becomes
Lean functions over explicit state records, machine integers become `Nat`,
Go panics become `Option`/`Except` failures, and opaque collaborators
(the consensus library, the transport, the storage engines) appear as
explicit oracle inputs.  Byte strings are lists of `Nat` values below 256.
-/

namespace Raftstore

/-! ### Lease (modelled from the specification)

`leaderLease` is a value of type `*Lease` whose implementation file is not
among the sources; only its call sites are.  The model below follows the
specification text for §4.1: a lease is `{bound: timestamp | suspect |
expired, max_lease: duration}`; `suspect(now)` marks Suspect with
`bound = now + max_lease`; inspection during Suspect always returns Suspect;
`renew(now)` sets `bound = now + max_lease` unless currently Suspect with a
later bound; `expire()` forces Expired. -/

/-- Lease inspection outcome, mirroring `LeaseStateValid`, `LeaseStateSuspect`
and `LeaseStateExpired` from the sources. -/
inductive LeaseState
  | valid
  | suspect
  | expired
  deriving DecidableEq, Repr

/-- Modelled from the spec: the `bound` field of a lease is a sum of a valid
timestamp, a suspect timestamp, or the expired marker. -/
inductive LeaseBound
  | valid (t : Nat)
  | suspect (t : Nat)
  | expired
  deriving DecidableEq, Repr

/-- Modelled from the spec: the leader lease owned by a peer (`lease.go` is
not among the sources; only its call sites in `peer.go` are). -/
structure Lease where
  bound : LeaseBound
  maxLease : Nat
  deriving DecidableEq, Repr

/-- Modelled from the spec: `suspect(now)` marks Suspect with
`bound = now + max_lease`. -/
def Lease.suspectAt (l : Lease) (now : Nat) : Lease :=
  { l with bound := LeaseBound.suspect (now + l.maxLease) }

/-- Modelled from the spec: `expire()` forces Expired. -/
def Lease.expire (l : Lease) : Lease :=
  { l with bound := LeaseBound.expired }

/-- Modelled from the spec: `renew(now)` sets `bound = now + max_lease`
unless currently Suspect with a later bound. -/
def Lease.renew (l : Lease) (now : Nat) : Lease :=
  match l.bound with
  | LeaseBound.suspect b =>
      if now + l.maxLease ≤ b then l
      else { l with bound := LeaseBound.valid (now + l.maxLease) }
  | _ => { l with bound := LeaseBound.valid (now + l.maxLease) }

/-- Modelled from the spec: `inspect(t)` returns Valid, Suspect or Expired;
inspection during Suspect always returns Suspect. -/
def Lease.inspect (l : Lease) (t : Nat) : LeaseState :=
  match l.bound with
  | LeaseBound.suspect _ => LeaseState.suspect
  | LeaseBound.expired => LeaseState.expired
  | LeaseBound.valid b => if t ≤ b then LeaseState.valid else LeaseState.expired

/-! ### ProposalContext (`peer.go` lines 162-197)

`ProposalContext` is a one-byte bitset; values are `Nat`s below 256. -/

/-- The `ProposalContext` byte (Go `type ProposalContext byte`). -/
abbrev ProposalContext := Nat

/-- `ProposalContextSyncLog = 1`. -/
def ProposalContextSyncLog : ProposalContext := 1

/-- `ProposalContextSplit = 1 << 1`. -/
def ProposalContextSplit : ProposalContext := 2

/-- `ProposalContextPrepareMerge = 1 << 2`. -/
def ProposalContextPrepareMerge : ProposalContext := 4

/-- `(c ProposalContext) ToBytes()`: the one-byte encoding. -/
def ProposalContext.ToBytes (c : ProposalContext) : List Nat := [c]

/-- `contains` tests a flag bit. -/
def ProposalContext.containsFlag (c flag : ProposalContext) : Bool :=
  c.land flag ≠ 0

/-- `insert` sets a flag bit. -/
def ProposalContext.insertFlag (c flag : ProposalContext) : ProposalContext :=
  c.lor flag

/-- Result of `NewProposalContextFromBytes`: a decoded optional context, or
the corrupt-data panic. -/
inductive DecodeResult
  | ok (c : Option ProposalContext)
  | corrupt
  deriving DecidableEq, Repr

/-- `NewProposalContextFromBytes` (`peer.go` 178-189): length 0 decodes to
nil, length 1 to the byte, anything longer panics. -/
def NewProposalContextFromBytes : List Nat → DecodeResult
  | [] => DecodeResult.ok none
  | [b] => DecodeResult.ok (some b)
  | _ => DecodeResult.corrupt

/-- Claim C8: `ProposalContext` encoding and decoding round-trip: for every
context byte `c`, decoding `ToBytes c` yields `c` again; decoding an empty
context yields none; decoding any context longer than one byte is rejected as
corrupt (the Go code panics). -/
theorem C8_proposal_context_roundtrip :
    (∀ c : ProposalContext,
        NewProposalContextFromBytes (ProposalContext.ToBytes c)
          = DecodeResult.ok (some c))
    ∧ NewProposalContextFromBytes [] = DecodeResult.ok none
    ∧ (∀ l : List Nat, 2 ≤ l.length →
        NewProposalContextFromBytes l = DecodeResult.corrupt) := by
  refine ⟨fun c => rfl, rfl, fun l hl => ?_⟩
  match l with
  | [] => simp at hl
  | [b] => simp at hl
  | a :: b :: rest => rfl

/-- Witness for C8 at concrete inputs: the round trip at byte 5 and the
rejection of the two-byte context `[0, 0]`. -/
theorem C8_proposal_context_roundtrip_witness :
    NewProposalContextFromBytes (ProposalContext.ToBytes 5)
        = DecodeResult.ok (some 5)
      ∧ NewProposalContextFromBytes [0, 0] = DecodeResult.corrupt := by
  refine ⟨C8_proposal_context_roundtrip.1 5, ?_⟩
  exact C8_proposal_context_roundtrip.2.2 [0, 0] (by decide)

/-! ### LeaderChecker (`read.go` lines 36-121)

The `leaderChecker` decision logic of `isExpired`/`IsLeader`.  Atomic loads
become plain record fields (the checker is read at one instant); the remote
lease's `Inspect` result at the snapshot time is an explicit input, since the
lease implementation lives outside the peer controller sources.  `IsLeader`
either rejects with an error, permits the local read (returns nil without
touching the router), or issues a synchronous `Snap` command through the
router; the three outcomes are the `IsLeaderOutcome` sum. -/

/-- Region epoch `{conf_ver, version}`. -/
structure RegionEpoch where
  confVer : Nat
  version : Nat
  deriving DecidableEq, Repr

/-- Errors produced by `leaderChecker.isExpired`. -/
inductive CheckErr
  | regionNotFound (regionId : Nat)
  | mismatchPeer
  | staleCommand
  | missingEpoch
  | epochNotMatch
  deriving DecidableEq, Repr

/-- The shared `leaderChecker` snapshot a foreign reader observes. -/
structure LeaderCheckerState where
  peerID : Nat
  invalid : Bool
  term : Nat
  appliedIndexTerm : Nat
  regionId : Nat
  regionEpoch : RegionEpoch
  /-- Result of the remote lease's `Inspect` at the snapshot time. -/
  leaseInspect : LeaseState
  deriving DecidableEq, Repr

/-- The request context (`kvrpcpb.Context`) fields consulted by `isExpired`. -/
structure ReaderCtx where
  peerId : Nat
  term : Nat
  regionId : Nat
  regionEpoch : Option RegionEpoch
  deriving DecidableEq, Repr

/-- `leaderChecker.isExpired` (`read.go` 87-121): validity checks, then
whether the lease fast path has expired (`true` forces a quorum read). -/
def leaderCheckerIsExpired (c : LeaderCheckerState) (ctx : ReaderCtx) :
    Except CheckErr Bool :=
  if c.invalid then Except.error (CheckErr.regionNotFound ctx.regionId)
  else if ctx.peerId ≠ c.peerID then Except.error CheckErr.mismatchPeer
  else if ¬(ctx.term = 0 ∨ c.term ≤ ctx.term + 1) then
    Except.error CheckErr.staleCommand
  else
    match ctx.regionEpoch with
    | none => Except.error CheckErr.missingEpoch
    | some e =>
        if e.version ≠ c.regionEpoch.version then
          Except.error CheckErr.epochNotMatch
        else if c.appliedIndexTerm ≠ c.term then Except.ok true
        else Except.ok (c.leaseInspect == LeaseState.expired)

/-- The three ways `leaderChecker.IsLeader` can resolve. -/
inductive IsLeaderOutcome
  | reject (e : CheckErr)
  | permitLocal
  | forceSnap
  deriving DecidableEq, Repr

/-- `leaderChecker.IsLeader` (`read.go` 45-85): reject on error, permit the
local read when not expired, otherwise issue a synchronous `Snap` command
through the router and block on its callback. -/
def leaderCheckerIsLeader (c : LeaderCheckerState) (ctx : ReaderCtx) :
    IsLeaderOutcome :=
  match leaderCheckerIsExpired c ctx with
  | Except.error e => IsLeaderOutcome.reject e
  | Except.ok b => if b then IsLeaderOutcome.forceSnap else IsLeaderOutcome.permitLocal

/-- Claim C4: `leaderChecker.IsLeader` rejects with RegionNotFound when the
invalid flag is set, errors when the request's peer id differs, rejects with
StaleCommand when the request term is nonzero and the checker's term exceeds
it by more than one, rejects with EpochNotMatch when the region epoch Version
differs (ConfVer is ignored), permits the local read exactly when the checks
pass and `appliedIndexTerm = term` and the remote lease's Inspect is not
Expired, and otherwise forces a synchronous Snap round through the router. -/
theorem C4_leader_checker_decision (c : LeaderCheckerState)
    (pid tm rid cv cv' v : Nat) :
    (leaderCheckerIsLeader c ⟨pid, tm, rid, some ⟨cv, v⟩⟩
        = IsLeaderOutcome.reject (CheckErr.regionNotFound rid) ↔ c.invalid)
    ∧ (leaderCheckerIsLeader c ⟨pid, tm, rid, some ⟨cv, v⟩⟩
        = IsLeaderOutcome.reject CheckErr.mismatchPeer
        ↔ ¬c.invalid ∧ pid ≠ c.peerID)
    ∧ (leaderCheckerIsLeader c ⟨pid, tm, rid, some ⟨cv, v⟩⟩
        = IsLeaderOutcome.reject CheckErr.staleCommand
        ↔ ¬c.invalid ∧ pid = c.peerID ∧ tm ≠ 0 ∧ tm + 1 < c.term)
    ∧ (leaderCheckerIsLeader c ⟨pid, tm, rid, some ⟨cv, v⟩⟩
        = IsLeaderOutcome.reject CheckErr.epochNotMatch
        ↔ ¬c.invalid ∧ pid = c.peerID ∧ (tm = 0 ∨ c.term ≤ tm + 1)
          ∧ v ≠ c.regionEpoch.version)
    ∧ (leaderCheckerIsLeader c ⟨pid, tm, rid, some ⟨cv, v⟩⟩
        = IsLeaderOutcome.permitLocal
        ↔ ¬c.invalid ∧ pid = c.peerID ∧ (tm = 0 ∨ c.term ≤ tm + 1)
          ∧ v = c.regionEpoch.version
          ∧ c.appliedIndexTerm = c.term ∧ c.leaseInspect ≠ LeaseState.expired)
    ∧ (leaderCheckerIsLeader c ⟨pid, tm, rid, some ⟨cv, v⟩⟩
        = IsLeaderOutcome.forceSnap
        ↔ ¬c.invalid ∧ pid = c.peerID ∧ (tm = 0 ∨ c.term ≤ tm + 1)
          ∧ v = c.regionEpoch.version
          ∧ (c.appliedIndexTerm ≠ c.term ∨ c.leaseInspect = LeaseState.expired))
    ∧ leaderCheckerIsLeader c ⟨pid, tm, rid, some ⟨cv, v⟩⟩
        = leaderCheckerIsLeader c ⟨pid, tm, rid, some ⟨cv', v⟩⟩ := by
  unfold leaderCheckerIsLeader leaderCheckerIsExpired
  by_cases hinv : c.invalid <;>
    by_cases hpid : pid = c.peerID <;>
      by_cases htm : tm = 0 ∨ c.term ≤ tm + 1 <;>
        by_cases hv : v = c.regionEpoch.version <;>
          by_cases hait : c.appliedIndexTerm = c.term <;>
            by_cases hl : c.leaseInspect = LeaseState.expired <;>
              simp_all <;> omega

/-! ### Conf-change safety check (`peer.go` 1302-1394)

The raft progress map becomes an association list from peer id to progress;
Go map iteration order only feeds a count, so a list is faithful. -/

/-- `eraftpb.ConfChangeType`. -/
inductive ConfChangeType
  | addNode
  | removeNode
  | addLearnerNode
  deriving DecidableEq, Repr

/-- `metapb.PeerRole` as consulted here (voter vs learner). -/
inductive PeerRole
  | voter
  | learner
  deriving DecidableEq, Repr

/-- `raft.Progress` fields consulted by the safety check. -/
structure Progress where
  matchIdx : Nat
  isLearner : Bool
  deriving DecidableEq, Repr

/-- The raft status progress map, keyed by peer id. -/
abbrev ProgressMap := List (Nat × Progress)

/-- Map lookup (`status.Progress[id]`). -/
def progLookup (m : ProgressMap) (k : Nat) : Option Progress :=
  (m.find? (fun e => e.1 == k)).map Prod.snd

/-- Map store (`status.Progress[id] = pr`): replace in place, else append. -/
def progSet (m : ProgressMap) (k : Nat) (v : Progress) : ProgressMap :=
  if (m.find? (fun e => e.1 == k)).isSome then
    m.map (fun e => if e.1 == k then (k, v) else e)
  else m ++ [(k, v)]

/-- Map delete (`delete(status.Progress, id)`). -/
def progDel (m : ProgressMap) (k : Nat) : ProgressMap :=
  m.filter (fun e => e.1 ≠ k)

/-- `countHealthyNode` (`peer.go` 1308-1316): nodes with
`progress.Match ≥ truncatedIndex`. -/
def countHealthyNode (truncIdx : Nat) (m : ProgressMap) : Nat :=
  (m.filter (fun e => truncIdx ≤ e.2.matchIdx)).length

/-- `Quorum` (`peer.go` 1392-1394). -/
def Quorum (total : Nat) : Nat := total / 2 + 1

/-- The fields of a `ChangePeerRequest` consulted by `checkConfChange`. -/
structure ConfChangeReq where
  changeType : ConfChangeType
  peerId : Nat
  peerRole : PeerRole
  deriving DecidableEq, Repr

/-- The simulation of a conf change on a copy of the progress map, as
performed inside `checkConfChange`: AddNode inserts or promotes a learner
(an existing voter is overwritten with a zero progress), RemoveNode deletes,
AddLearnerNode leaves the map unchanged. -/
def simulateConfChange (progress : ProgressMap) (req : ConfChangeReq) :
    ProgressMap :=
  match req.changeType with
  | ConfChangeType.addNode =>
      match progLookup progress req.peerId with
      | some pr =>
          if pr.isLearner then
            progSet progress req.peerId { pr with isLearner := false }
          else progSet progress req.peerId ⟨0, false⟩
      | none => progSet progress req.peerId ⟨0, false⟩
  | ConfChangeType.removeNode => progDel progress req.peerId
  | ConfChangeType.addLearnerNode => progress

/-- `checkConfChange` (`peer.go` 1330-1389), as an acceptance predicate
(`true` iff the function returns a nil error): malformed-request and
remove-leader rejections, the single-node early accept, the early accepts for
learner or absent RemoveNode targets and for AddLearnerNode, then the
healthy-count quorum test on the simulated map. -/
def checkConfChange (allowRemoveLeader : Bool) (selfID truncIdx : Nat)
    (progress : ProgressMap) (req : ConfChangeReq) : Bool :=
  if (req.changeType = ConfChangeType.addNode ∧ req.peerRole = PeerRole.learner)
      ∨ (req.changeType = ConfChangeType.addLearnerNode
          ∧ req.peerRole ≠ PeerRole.learner) then false
  else if req.changeType = ConfChangeType.removeNode ∧ ¬allowRemoveLeader
      ∧ req.peerId = selfID then false
  else if progress.length = 1 then true
  else
    match req.changeType with
    | ConfChangeType.addLearnerNode => true
    | ConfChangeType.addNode =>
        let m := simulateConfChange progress req
        countHealthyNode truncIdx m ≥ Quorum m.length
    | ConfChangeType.removeNode =>
        if req.peerRole = PeerRole.learner then true
        else if (progLookup progress req.peerId).isSome then
          let m := simulateConfChange progress req
          countHealthyNode truncIdx m ≥ Quorum m.length
        else true

/-- Counterexample to claim C3 as stated: with a single-node progress map
whose only member is unhealthy, an AddNode request is accepted by
`checkConfChange` (the `total == 1` early accept), yet after simulating the
change the healthy count 0 is below `Quorum 2 = 2`, so acceptance is not
equivalent to the post-change healthy-quorum test. -/
theorem C3_counterexample :
    checkConfChange true 1 5 [(1, ⟨0, false⟩)]
        ⟨ConfChangeType.addNode, 2, PeerRole.voter⟩ = true
    ∧ ¬(countHealthyNode 5
          (simulateConfChange [(1, ⟨0, false⟩)]
            ⟨ConfChangeType.addNode, 2, PeerRole.voter⟩)
        ≥ Quorum (simulateConfChange [(1, ⟨0, false⟩)]
            ⟨ConfChangeType.addNode, 2, PeerRole.voter⟩).length) := by
  decide

/-- Claim C3, amended: `Quorum total = total/2 + 1` for every total in
`[1, 7]`, and `checkConfChange` accepts iff the request is well formed (no
AddNode of a learner-role peer, no AddLearnerNode of a voter-role peer), is
not a forbidden removal of the leader, and either the group has a single
node, or the change is AddLearnerNode, or it is a RemoveNode of a
learner-role or absent peer, or the healthy-node count of the simulated
post-change map is at least the quorum of its size. -/
theorem C3_quorum_and_conf_change_acceptance (allowRemoveLeader : Bool)
    (selfID truncIdx : Nat) (progress : ProgressMap) (req : ConfChangeReq) :
    (∀ total, 1 ≤ total → total ≤ 7 → Quorum total = total / 2 + 1)
    ∧ (checkConfChange allowRemoveLeader selfID truncIdx progress req = true
        ↔ ¬((req.changeType = ConfChangeType.addNode
                ∧ req.peerRole = PeerRole.learner)
            ∨ (req.changeType = ConfChangeType.addLearnerNode
                ∧ req.peerRole ≠ PeerRole.learner))
          ∧ ¬(req.changeType = ConfChangeType.removeNode ∧ ¬allowRemoveLeader
                ∧ req.peerId = selfID)
          ∧ (progress.length = 1
             ∨ req.changeType = ConfChangeType.addLearnerNode
             ∨ (req.changeType = ConfChangeType.removeNode
                ∧ (req.peerRole = PeerRole.learner
                   ∨ progLookup progress req.peerId = none))
             ∨ countHealthyNode truncIdx (simulateConfChange progress req)
                 ≥ Quorum (simulateConfChange progress req).length)) := by
  refine ⟨fun total _ _ => rfl, ?_⟩
  obtain ⟨ct, pid, prole⟩ := req
  unfold checkConfChange
  cases ct <;> cases prole <;>
    simp only [simulateConfChange] <;>
    split_ifs <;>
    (try cases hpl : progLookup progress pid) <;>
    simp_all [Option.isSome_iff_exists]

/-- Witness for C3 at a concrete input: the quorum formula evaluated at 7,
obtained from the amended theorem with its range hypotheses discharged. -/
theorem C3_quorum_and_conf_change_acceptance_witness : Quorum 7 = 4 := by
  have h := (C3_quorum_and_conf_change_acceptance true 1 5 []
    ⟨ConfChangeType.addNode, 2, PeerRole.voter⟩).1 7 (by decide) (by decide)
  simpa using h

/-! ### Request inspection (`peer.go` 1710-1811)

`Inspect` consults only the two `RequestInspector` methods
(`hasAppliedToCurrentTerm`, `inspectLease`) and the request body.  The peer
instantiation derives both from the peer read state. -/

/-- `RequestPolicy` (`peer.go` 1714-1723); the `Invalid` member only ever
accompanies an error, which the `Except` layer carries instead. -/
inductive RequestPolicy
  | readLocal
  | readIndex
  | proposeNormal
  | proposeTransferLeader
  | proposeConfChange
  deriving DecidableEq, Repr

/-- `raft_cmdpb.CmdType` members consulted by `Inspect`. -/
inductive CmdType
  | get
  | snap
  | put
  | del
  | deleteRange
  | ingestSST
  | prewrite
  | invalidCmd
  deriving DecidableEq, Repr

/-- `raft_cmdpb.AdminCmdType`. -/
inductive AdminCmdType
  | invalidAdmin
  | changePeer
  | split
  | batchSplit
  | prepareMerge
  | commitMerge
  | rollbackMerge
  | transferLeader
  | computeHash
  | verifyHash
  deriving DecidableEq, Repr

/-- The admin-request fields consulted by the propose paths: the command
type and which sub-messages are present. -/
structure AdminRequest where
  cmdType : AdminCmdType
  hasChangePeer : Bool
  hasTransferLeader : Bool
  hasPrepareMerge : Bool
  deriving DecidableEq, Repr

/-- The `RaftCmdRequest` fields consulted by inspection and the propose
paths.  Protobuf serialization is opaque, so the marshalled payload size is
carried as a field. -/
structure RaftCmdRequest where
  admin : Option AdminRequest
  requests : List CmdType
  hasHeader : Bool
  readQuorum : Bool
  syncLog : Bool
  marshalSize : Nat
  deriving DecidableEq, Repr

/-- Errors raised while scanning the sub-commands of a data request. -/
inductive InspectErr
  | corruptCmd
  | mixedReadWrite
  deriving DecidableEq, Repr

/-- The sub-command scan inside `Inspect` (`peer.go` 1770-1785): `Get`/`Snap`
mark read, `Put`/`Delete`/`DeleteRange`/`IngestSST` mark write,
`Prewrite`/`Invalid` fail, mixing read and write fails. -/
def scanRequests : List CmdType → Bool → Bool → Except InspectErr (Bool × Bool)
  | [], hasRead, hasWrite => Except.ok (hasRead, hasWrite)
  | c :: rest, hasRead, hasWrite =>
    match c with
    | CmdType.prewrite => Except.error InspectErr.corruptCmd
    | CmdType.invalidCmd => Except.error InspectErr.corruptCmd
    | _ =>
        let hr := hasRead || c == CmdType.get || c == CmdType.snap
        let hw := hasWrite || c == CmdType.put || c == CmdType.del
          || c == CmdType.deleteRange || c == CmdType.ingestSST
        if hr && hw then Except.error InspectErr.mixedReadWrite
        else scanRequests rest hr hw

/-- `Inspect` (`peer.go` 1759-1811) over the two `RequestInspector` inputs. -/
def Inspect (hasAppliedToCurrentTerm : Bool) (leaseState : LeaseState)
    (req : RaftCmdRequest) : Except InspectErr RequestPolicy :=
  match req.admin with
  | some a =>
      if a.hasChangePeer then Except.ok RequestPolicy.proposeConfChange
      else if a.hasTransferLeader then Except.ok RequestPolicy.proposeTransferLeader
      else Except.ok RequestPolicy.proposeNormal
  | none =>
      match scanRequests req.requests false false with
      | Except.error e => Except.error e
      | Except.ok (_, hasWrite) =>
          if hasWrite then Except.ok RequestPolicy.proposeNormal
          else if req.hasHeader && req.readQuorum then Except.ok RequestPolicy.readIndex
          else if !hasAppliedToCurrentTerm then Except.ok RequestPolicy.readIndex
          else
            match leaseState with
            | LeaseState.valid => Except.ok RequestPolicy.readLocal
            | LeaseState.expired => Except.ok RequestPolicy.readIndex
            | LeaseState.suspect => Except.ok RequestPolicy.readIndex

/-- The peer fields consulted by the read-path decisions. -/
structure PeerReadState where
  term : Nat
  appliedIndexTerm : Nat
  appliedIndex : Nat
  lastCommittedSplitIdx : Nat
  lastCommittedPrepareMergeIdx : Nat
  hasPendingMergeState : Bool
  /-- `RaftGroup.Raft.InLease()` of the consensus library. -/
  inLease : Bool
  leaderLease : Lease
  now : Nat
  deriving DecidableEq, Repr

/-- `isSplitting` (`peer.go` 806-808). -/
def isSplitting (s : PeerReadState) : Bool :=
  s.appliedIndex < s.lastCommittedSplitIdx

/-- `isMerging` (`peer.go` 810-812). -/
def isMerging (s : PeerReadState) : Bool :=
  s.appliedIndex < s.lastCommittedPrepareMergeIdx || s.hasPendingMergeState

/-- `hasAppliedToCurrentTerm` (`peer.go` 1733-1735). -/
def hasAppliedToCurrentTerm (s : PeerReadState) : Bool :=
  s.appliedIndexTerm == s.term

/-- `inspectLease` (`peer.go` 1737-1748): Suspect when the consensus library
is not in lease, else the owned lease inspected now (the source additionally
expires the stored lease when the inspection says Expired, which does not
change the returned state). -/
def inspectLease (s : PeerReadState) : LeaseState :=
  if !s.inLease then LeaseState.suspect
  else s.leaderLease.inspect s.now

/-- The peer instantiation of `Inspect` (`peer.go` 1750-1756). -/
def peerInspect (s : PeerReadState) (req : RaftCmdRequest) :
    Except InspectErr RequestPolicy :=
  Inspect (hasAppliedToCurrentTerm s) (inspectLease s) req

theorem inspect_read_local_inputs (hat : Bool) (ls : LeaseState)
    (req : RaftCmdRequest)
    (h : Inspect hat ls req = Except.ok RequestPolicy.readLocal) :
    ls = LeaseState.valid ∧ hat = true := by
  obtain ⟨adm, reqs, hh, rq, sl, ms⟩ := req
  cases adm with
  | some a =>
      obtain ⟨act, acp, atl, apm⟩ := a
      cases acp <;> cases atl <;> simp [Inspect] at h
  | none =>
      unfold Inspect at h
      simp only at h
      cases hscan : scanRequests reqs false false with
      | error e => rw [hscan] at h; simp at h
      | ok p =>
          obtain ⟨hr, hw⟩ := p
          rw [hscan] at h
          cases hw <;> cases hat <;> cases hh <;> cases rq <;> cases ls <;>
            simp_all

theorem inspectLease_valid_inputs (s : PeerReadState)
    (h : inspectLease s = LeaseState.valid) :
    s.inLease = true ∧ s.leaderLease.inspect s.now = LeaseState.valid := by
  unfold inspectLease at h
  cases hil : s.inLease
  · rw [hil] at h; simp at h
  · rw [hil] at h
    simp at h
    exact ⟨rfl, h⟩

/-- Counterexample to claim C2 as stated: a peer state whose
`PendingMergeState` is set (so the peer is merging) while the lease is Valid
and `appliedIndexTerm` equals the term still gets the ReadLocal policy,
because `Inspect` never consults the splitting or merging state. -/
theorem C2_counterexample :
    peerInspect
        ⟨1, 1, 0, 0, 0, true, true, ⟨LeaseBound.valid 10, 3⟩, 5⟩
        ⟨none, [CmdType.get], true, false, false, 0⟩
      = Except.ok RequestPolicy.readLocal
    ∧ isMerging ⟨1, 1, 0, 0, 0, true, true, ⟨LeaseBound.valid 10, 3⟩, 5⟩
      = true :=
  ⟨rfl, rfl⟩

/-- Claim C2, amended: whenever request inspection chooses the ReadLocal
policy, at that moment `inspectLease` returns Valid (so the consensus library
is in lease and the owned leader lease inspects as Valid now) and the store's
`appliedIndexTerm` equals the current raft term; the inspection does not
consult the splitting or merging state, so no such guarantee is made for
them. -/
theorem C2_read_local_requires_lease_and_term (s : PeerReadState)
    (req : RaftCmdRequest)
    (h : peerInspect s req = Except.ok RequestPolicy.readLocal) :
    inspectLease s = LeaseState.valid ∧ s.inLease = true
    ∧ s.leaderLease.inspect s.now = LeaseState.valid
    ∧ s.appliedIndexTerm = s.term := by
  have h1 := inspect_read_local_inputs _ _ _ h
  have h2 := inspectLease_valid_inputs s h1.1
  refine ⟨h1.1, h2.1, h2.2, ?_⟩
  have := h1.2
  unfold hasAppliedToCurrentTerm at this
  exact eq_of_beq this

/-- Witness for the amended C2 at a concrete input: a plain Snap read on a
healthy leader state is classified ReadLocal, and the theorem yields the
lease and term facts there. -/
theorem C2_read_local_requires_lease_and_term_witness :
    inspectLease ⟨2, 2, 7, 0, 0, false, true, ⟨LeaseBound.valid 20, 3⟩, 9⟩
        = LeaseState.valid
    ∧ (⟨2, 2, 7, 0, 0, false, true, ⟨LeaseBound.valid 20, 3⟩, 9⟩ :
        PeerReadState).inLease = true
    ∧ Lease.inspect ⟨LeaseBound.valid 20, 3⟩ 9 = LeaseState.valid
    ∧ (2 : Nat) = 2 := by
  have h := C2_read_local_requires_lease_and_term
    ⟨2, 2, 7, 0, 0, false, true, ⟨LeaseBound.valid 20, 3⟩, 9⟩
    ⟨none, [CmdType.snap], true, false, false, 0⟩ rfl
  exact ⟨h.1, h.2.1, h.2.2.1, h.2.2.2⟩

/-! ### Committed-entry handling (`peer.go` 127-160, 966-976, 1040-1126) -/

/-- `ProposalMeta` (`peer.go` 127-132); `RenewLeaseTime` is a nullable
timestamp. -/
structure ProposalMeta where
  index : Nat
  term : Nat
  renewLeaseTime : Option Nat
  deriving DecidableEq, Repr

/-- The ordered proposal queue (`peer.go` 134-137). -/
abbrev ProposalQueue := List ProposalMeta

/-- `ProposalQueue.PopFront` (`peer.go` 140-147): pops only when the head's
term is at most the given term. -/
def proposalPopFront (term : Nat) (q : ProposalQueue) :
    Option ProposalMeta × ProposalQueue :=
  match q with
  | [] => (none, [])
  | m :: rest => if term < m.term then (none, m :: rest) else (some m, rest)

/-- `findProposeTime` (`peer.go` 966-976): repeatedly pop until the head
matches `(index, term)` exactly or the queue refuses to pop; returns the
recorded renew-lease time of the match (itself nullable). -/
def findProposeTime (index term : Nat) : ProposalQueue → Option Nat × ProposalQueue
  | [] => (none, [])
  | m :: rest =>
      if term < m.term then (none, m :: rest)
      else if m.index = index ∧ m.term = term then (m.renewLeaseTime, rest)
      else findProposeTime index term rest

/-- A committed raft log entry as consulted by `HandleRaftReadyApply`:
index, term, payload length, and the proposal-context byte string that was
attached at propose time. -/
structure RaftEntry where
  index : Nat
  term : Nat
  dataLen : Nat
  context : List Nat
  deriving DecidableEq, Repr

/-- `math.MaxUint64`, the reset value of `lastUrgentProposalIdx`. -/
def uint64Max : Nat := 2 ^ 64 - 1

/-- The peer fields read and written by the committed-entries portion of
`HandleRaftReadyApply`. -/
structure PeerApplyState where
  term : Nat
  isLeader : Bool
  proposals : ProposalQueue
  leaderLease : Lease
  lastCommittedSplitIdx : Nat
  lastCommittedPrepareMergeIdx : Nat
  appliedIndex : Nat
  hasPendingMergeState : Bool
  raftLogSizeHint : Nat
  lastApplyingIdx : Nat
  lastUrgentProposalIdx : Nat
  skipBcastCommit : Bool
  deriving DecidableEq, Repr

/-- `isSplitting` over the apply-side state. -/
def applyIsSplitting (s : PeerApplyState) : Bool :=
  s.appliedIndex < s.lastCommittedSplitIdx

/-- `isMerging` over the apply-side state. -/
def applyIsMerging (s : PeerApplyState) : Bool :=
  s.appliedIndex < s.lastCommittedPrepareMergeIdx || s.hasPendingMergeState

/-- `MaybeRenewLeaderLease` (`peer.go` 932-949) acting on the owned lease; a
non-leader, splitting or merging peer never renews.  (The subsequent
remote-lease publication to the leader checker is outside the state
consulted here.) -/
def maybeRenewLeaderLease (s : PeerApplyState) (ts : Nat) : PeerApplyState :=
  if !s.isLeader || applyIsSplitting s || applyIsMerging s then s
  else { s with leaderLease := s.leaderLease.renew ts }

/-- One iteration of the committed-entries loop (`peer.go` 1063-1099),
threading the three update flags.  The source comments out
`NewProposalContextFromBytes(entry.Context)` and decodes the literal byte
string `{0}` instead. -/
def handleEntry (now : Nat) (s : PeerApplyState) (lu su mu : Bool)
    (e : RaftEntry) : PeerApplyState × Bool × Bool × Bool :=
  let s1 := { s with raftLogSizeHint := s.raftLogSizeHint + e.dataLen }
  let step2 :=
    if lu then
      let r := findProposeTime e.index e.term s1.proposals
      let s' := { s1 with proposals := r.2 }
      match r.1 with
      | some t => (maybeRenewLeaderLease s' t, false)
      | none => (s', true)
    else (s1, lu)
  let s2 := step2.1
  let lu2 := step2.2
  let workaroundCtx : ProposalContext :=
    match NewProposalContextFromBytes [0] with
    | DecodeResult.ok (some c) => c
    | _ => 0
  if e.term == s2.term && (su || mu) then
    let step3 :=
      if su && workaroundCtx.containsFlag ProposalContextSplit then
        ({ s2 with lastCommittedSplitIdx := e.index }, false)
      else (s2, su)
    let s3 := step3.1
    let su3 := step3.2
    let step4 :=
      if mu && workaroundCtx.containsFlag ProposalContextPrepareMerge then
        ({ s3 with lastCommittedPrepareMergeIdx := e.index,
                   leaderLease := s3.leaderLease.suspectAt now }, false)
      else (s3, mu)
    (step4.1, lu2, su3, step4.2)
  else (s2, lu2, su, mu)

/-- The committed-entries loop. -/
def handleEntriesLoop (now : Nat) :
    List RaftEntry → PeerApplyState → Bool → Bool → Bool → PeerApplyState
  | [], s, _, _, _ => s
  | e :: rest, s, lu, su, mu =>
      let r := handleEntry now s lu su mu e
      handleEntriesLoop now rest r.1 r.2.1 r.2.2.1 r.2.2.2

/-- The committed-entries portion of `HandleRaftReadyApply` (`peer.go`
1053-1115): a non-leader clears its proposals, the per-entry loop runs with
the three update flags initialised to `IsLeader`, `LastApplyingIdx` advances
to the last committed entry (re-enabling lazy broadcast commit once it
crosses the urgent index), and a single apply batch `(term, entries)` is
emitted to the apply worker. -/
def handleRaftReadyApplyEntries (now : Nat) (s : PeerApplyState)
    (entries : List RaftEntry) : PeerApplyState × Option (Nat × List RaftEntry) :=
  let s0 := if s.isLeader then s else { s with proposals := [] }
  let s1 := handleEntriesLoop now entries s0 s.isLeader s.isLeader s.isLeader
  match entries.getLast? with
  | none => (s1, none)
  | some e =>
      let s2 := { s1 with lastApplyingIdx := e.index }
      let s3 :=
        if s2.lastUrgentProposalIdx ≤ s2.lastApplyingIdx then
          { s2 with skipBcastCommit := true, lastUrgentProposalIdx := uint64Max }
        else s2
      (s3, some (s3.term, entries))

/-- The initial peer state of the C1 failing input: a leader at term 5 with
an empty proposal queue, a valid lease and no split/merge recorded. -/
def C1state : PeerApplyState :=
  { term := 5, isLeader := true, proposals := [],
    leaderLease := ⟨LeaseBound.valid 100, 10⟩,
    lastCommittedSplitIdx := 0, lastCommittedPrepareMergeIdx := 0,
    appliedIndex := 3, hasPendingMergeState := false, raftLogSizeHint := 0,
    lastApplyingIdx := 3, lastUrgentProposalIdx := uint64Max,
    skipBcastCommit := true }

/-- The committed entry of the C1 failing input: committed at the current
term 5 and carrying the one-byte PREPARE_MERGE proposal context. -/
def C1entry : RaftEntry := ⟨7, 5, 1, [ProposalContextPrepareMerge]⟩

/-- Claim C1 names a code bug: the entry of the failing input carries a
PREPARE_MERGE proposal context and is committed at the current term, yet
after `HandleRaftReadyApply` the `lastCommittedPrepareMergeIdx` is still 0
and the leader lease still inspects Valid, because the source decodes the
literal byte string `{0}` instead of `entry.Context` (`peer.go` 1076-1077),
so neither the SPLIT nor the PREPARE_MERGE flag is ever observed. -/
theorem C1_prepare_merge_context_ignored :
    NewProposalContextFromBytes C1entry.context
        = DecodeResult.ok (some ProposalContextPrepareMerge)
    ∧ ProposalContext.containsFlag ProposalContextPrepareMerge
        ProposalContextPrepareMerge = true
    ∧ C1entry.term = C1state.term
    ∧ (handleRaftReadyApplyEntries 50 C1state [C1entry]).1.lastCommittedPrepareMergeIdx = 0
    ∧ (handleRaftReadyApplyEntries 50 C1state [C1entry]).1.leaderLease
        = C1state.leaderLease
    ∧ Lease.inspect
        (handleRaftReadyApplyEntries 50 C1state [C1entry]).1.leaderLease 50
        = LeaseState.valid :=
  ⟨rfl, by decide, rfl, rfl, rfl, rfl⟩

/-! ### Message sending and leader-transfer lease suspicion (`peer.go`
584-604)

`Send` forwards each message through the transport; `sendRaftMessage` fails
when the recipient peer cannot be resolved from the peer cache or the
region's peer list, and after each successfully sent `MsgTimeoutNow` the
leader lease is transited to Suspect. -/

/-- The `eraftpb.MessageType` members distinguished by `Send`. -/
inductive MsgType
  | msgTimeoutNow
  | msgHeartbeat
  | msgAppend
  | msgRequestVote
  | msgOther
  deriving DecidableEq, Repr

/-- A consensus message as consulted by `Send`. -/
structure RaftMsg where
  msgType : MsgType
  toPeer : Nat
  deriving DecidableEq, Repr

/-- `getPeerFromCache` resolvability (`peer.go` 410-421): the recipient is
in the peer cache or among the region's peers. -/
def canResolvePeer (peerCache regionPeers : List Nat) (toId : Nat) : Bool :=
  peerCache.contains toId || regionPeers.contains toId

/-- `Send` (`peer.go` 584-604): fail on the first unresolvable recipient,
and mark the lease Suspect after each sent `MsgTimeoutNow`. -/
def sendMessages (peerCache regionPeers : List Nat) (now : Nat) :
    List RaftMsg → Lease → Except Unit Lease
  | [], l => Except.ok l
  | m :: rest, l =>
      if canResolvePeer peerCache regionPeers m.toPeer then
        let l' := if m.msgType == MsgType.msgTimeoutNow then l.suspectAt now else l
        sendMessages peerCache regionPeers now rest l'
      else Except.error ()

theorem sendMessages_suspect_bound_preserved (peerCache regionPeers : List Nat)
    (now : Nat) (msgs : List RaftMsg) (l l' : Lease)
    (hok : sendMessages peerCache regionPeers now msgs l = Except.ok l')
    (hb : l.bound = LeaseBound.suspect (now + l.maxLease)) :
    l'.bound = LeaseBound.suspect (now + l.maxLease)
      ∧ l'.maxLease = l.maxLease := by
  induction msgs generalizing l with
  | nil =>
      unfold sendMessages at hok
      cases hok
      exact ⟨hb, rfl⟩
  | cons m rest ih =>
      unfold sendMessages at hok
      by_cases hcr : canResolvePeer peerCache regionPeers m.toPeer
      · rw [if_pos hcr] at hok
        by_cases hm : m.msgType == MsgType.msgTimeoutNow
        · rw [if_pos hm] at hok
          have := ih (l.suspectAt now) hok (by simp [Lease.suspectAt])
          simpa [Lease.suspectAt] using this
        · rw [if_neg hm] at hok
          exact ih l hok hb
      · rw [if_neg hcr] at hok
        cases hok

/-- Claim C9: after a successful `Send` whose message list contained at
least one `MsgTimeoutNow`, the leader lease has been marked Suspect with
bound `send-time + max_lease`, so any lease inspection afterwards returns
Suspect and the local-read fast path is disabled. -/
theorem C9_timeout_now_suspects_lease (peerCache regionPeers : List Nat)
    (now : Nat) (msgs : List RaftMsg) (l l' : Lease)
    (hok : sendMessages peerCache regionPeers now msgs l = Except.ok l')
    (htn : ∃ m ∈ msgs, m.msgType = MsgType.msgTimeoutNow) :
    l'.bound = LeaseBound.suspect (now + l.maxLease)
    ∧ ∀ t, l'.inspect t = LeaseState.suspect := by
  have hbound : l'.bound = LeaseBound.suspect (now + l.maxLease) := by
    induction msgs generalizing l with
    | nil => rcases htn with ⟨m, hm, _⟩; simp at hm
    | cons m rest ih =>
        unfold sendMessages at hok
        by_cases hcr : canResolvePeer peerCache regionPeers m.toPeer
        · rw [if_pos hcr] at hok
          by_cases hm : m.msgType == MsgType.msgTimeoutNow
          · rw [if_pos hm] at hok
            have := sendMessages_suspect_bound_preserved peerCache regionPeers
              now rest (l.suspectAt now) l' hok (by simp [Lease.suspectAt])
            simpa [Lease.suspectAt] using this.1
          · rw [if_neg hm] at hok
            rcases htn with ⟨m', hm', htype⟩
            rcases List.mem_cons.mp hm' with h | h
            · subst h
              exact absurd (by simp [htype]) hm
            · exact ih l hok ⟨m', h, htype⟩
        · rw [if_neg hcr] at hok
          cases hok
  refine ⟨hbound, fun t => ?_⟩
  unfold Lease.inspect
  rw [hbound]

/-- Witness for C9 at a concrete input: sending a single resolvable
`MsgTimeoutNow` at time 20 over a lease with `max_lease = 5` leaves the
lease Suspect with bound 25. -/
theorem C9_timeout_now_suspects_lease_witness :
    (⟨LeaseBound.suspect 25, 5⟩ : Lease).bound = LeaseBound.suspect (20 + 5)
    ∧ ∀ t, Lease.inspect ⟨LeaseBound.suspect 25, 5⟩ t = LeaseState.suspect :=
  C9_timeout_now_suspects_lease [2] [] 20 [⟨MsgType.msgTimeoutNow, 2⟩]
    ⟨LeaseBound.valid 10, 5⟩ ⟨LeaseBound.suspect 25, 5⟩ rfl
    ⟨⟨MsgType.msgTimeoutNow, 2⟩, by simp, rfl⟩

/-! ### Destroy (`peer.go` 102-107, 466-514)

Callbacks are identifiers; responding to a callback produces a
notification pair (callback id, response kind). -/

/-- The response kinds delivered to callbacks in the embedded fragments. -/
inductive RespKind
  | staleCommand (term : Nat)
  | regionNotFound (regionId : Nat)
  | readRejected
  | applied
  deriving DecidableEq, Repr

/-- A delivered callback response. -/
abbrev Notif := Nat × RespKind

/-- `ReadIndexRequest` (`peer.go` 59-63): the queued commands are their
callback ids. -/
structure ReadIndexRequest where
  id : Nat
  cmds : List Nat
  renewLeaseTime : Nat
  deriving DecidableEq, Repr

/-- The buffered apply proposals (`proposal` in `peer.go`). -/
structure ApplyProposal where
  isConfChange : Bool
  index : Nat
  term : Nat
  cb : Nat
  deriving DecidableEq, Repr

/-- `NotifyReqRegionRemoved` (`peer.go` 102-107). -/
def notifyReqRegionRemoved (regionId cb : Nat) : Notif :=
  (cb, RespKind.regionNotFound regionId)

/-- The pending-reads notification loop of `Destroy` (`peer.go` 499-505). -/
def destroyNotifyReads (regionId : Nat) : List ReadIndexRequest → List Notif
  | [] => []
  | r :: rest =>
      r.cmds.map (notifyReqRegionRemoved regionId)
        ++ destroyNotifyReads regionId rest

/-- The apply-proposals notification loop of `Destroy` (`peer.go`
507-510). -/
def destroyNotifyProposals (regionId : Nat) : List ApplyProposal → List Notif
  | [] => []
  | pr :: rest =>
      notifyReqRegionRemoved regionId pr.cb
        :: destroyNotifyProposals regionId rest

/-- The observable outcome of `Destroy`. -/
structure DestroyResult where
  tombstoneWritten : Bool
  notifs : List Notif
  pendingReads : List ReadIndexRequest
  applyProposals : List ApplyProposal
  deriving DecidableEq, Repr

/-- `Destroy` (`peer.go` 466-514) with the engine writes assumed to succeed:
write the tombstone peer state, then respond to every queued read command
and every buffered apply proposal with RegionNotFound for this region and
empty both buffers. -/
def peerDestroy (regionId : Nat) (reads : List ReadIndexRequest)
    (props : List ApplyProposal) : DestroyResult :=
  { tombstoneWritten := true,
    notifs := destroyNotifyReads regionId reads
      ++ destroyNotifyProposals regionId props,
    pendingReads := [],
    applyProposals := [] }

theorem mem_destroyNotifyReads_of (regionId cb : Nat) (r : ReadIndexRequest)
    (reads : List ReadIndexRequest) (hr : r ∈ reads) (hcb : cb ∈ r.cmds) :
    notifyReqRegionRemoved regionId cb ∈ destroyNotifyReads regionId reads := by
  induction reads with
  | nil => simp at hr
  | cons a rest ih =>
      rcases List.mem_cons.mp hr with h | h
      · subst h
        exact List.mem_append_left _ (List.mem_map_of_mem _ hcb)
      · exact List.mem_append_right _ (ih h)

theorem mem_destroyNotifyProposals_of (regionId : Nat) (pr : ApplyProposal)
    (props : List ApplyProposal) (hp : pr ∈ props) :
    notifyReqRegionRemoved regionId pr.cb
      ∈ destroyNotifyProposals regionId props := by
  induction props with
  | nil => simp at hp
  | cons a rest ih =>
      rcases List.mem_cons.mp hp with h | h
      · subst h; exact List.mem_cons_self _ _
      · exact List.mem_cons_of_mem _ (ih h)

theorem destroyNotifyReads_kind (regionId : Nat)
    (reads : List ReadIndexRequest) :
    ∀ n ∈ destroyNotifyReads regionId reads,
      n.2 = RespKind.regionNotFound regionId := by
  induction reads with
  | nil => intro n hn; simp [destroyNotifyReads] at hn
  | cons a rest ih =>
      intro n hn
      rcases List.mem_append.mp hn with h | h
      · rcases List.mem_map.mp h with ⟨cb, _, rfl⟩
        rfl
      · exact ih n h

theorem destroyNotifyProposals_kind (regionId : Nat)
    (props : List ApplyProposal) :
    ∀ n ∈ destroyNotifyProposals regionId props,
      n.2 = RespKind.regionNotFound regionId := by
  induction props with
  | nil => intro n hn; simp [destroyNotifyProposals] at hn
  | cons a rest ih =>
      intro n hn
      rcases List.mem_cons.mp hn with h | h
      · subst h; rfl
      · exact ih n h

/-- Claim C7: `Destroy` responds to every command of every request still in
the pending-reads queue and to every buffered apply-proposal callback with a
RegionNotFound error carrying this region's id (and to nothing else), and
afterwards both the pending-reads queue and the apply-proposal buffer are
empty. -/
theorem C7_destroy_notifies_region_not_found (regionId : Nat)
    (reads : List ReadIndexRequest) (props : List ApplyProposal) :
    (peerDestroy regionId reads props).pendingReads = []
    ∧ (peerDestroy regionId reads props).applyProposals = []
    ∧ (∀ r ∈ reads, ∀ cb ∈ r.cmds,
        notifyReqRegionRemoved regionId cb
          ∈ (peerDestroy regionId reads props).notifs)
    ∧ (∀ pr ∈ props,
        notifyReqRegionRemoved regionId pr.cb
          ∈ (peerDestroy regionId reads props).notifs)
    ∧ (∀ n ∈ (peerDestroy regionId reads props).notifs,
        n.2 = RespKind.regionNotFound regionId) := by
  refine ⟨rfl, rfl, ?_, ?_, ?_⟩
  · intro r hr cb hcb
    exact List.mem_append_left _ (mem_destroyNotifyReads_of regionId cb r reads hr hcb)
  · intro pr hp
    exact List.mem_append_right _ (mem_destroyNotifyProposals_of regionId pr props hp)
  · intro n hn
    rcases List.mem_append.mp hn with h | h
    · exact destroyNotifyReads_kind regionId reads n h
    · exact destroyNotifyProposals_kind regionId props n h

/-- Witness for C7 at a concrete input: one queued read with callback 10 and
one buffered proposal with callback 11 in region 9 are each answered with
RegionNotFound 9. -/
theorem C7_destroy_notifies_region_not_found_witness :
    notifyReqRegionRemoved 9 10
        ∈ (peerDestroy 9 [⟨1, [10], 0⟩] [⟨false, 1, 1, 11⟩]).notifs
    ∧ notifyReqRegionRemoved 9 11
        ∈ (peerDestroy 9 [⟨1, [10], 0⟩] [⟨false, 1, 1, 11⟩]).notifs := by
  have h := C7_destroy_notifies_region_not_found 9 [⟨1, [10], 0⟩]
    [⟨false, 1, 1, 11⟩]
  refine ⟨h.2.2.1 ⟨1, [10], 0⟩ (by simp) 10 (by simp), ?_⟩
  have := h.2.2.2.1 ⟨false, 1, 1, 11⟩ (by simp)
  simpa using this

/-! ### The read-index propose path (`peer.go` 80-125, 1432-1503) -/

/-- `ReadIndexQueue` (`peer.go` 81-85). -/
structure ReadIndexQueue where
  idAllocator : Nat
  reads : List ReadIndexRequest
  readyCnt : Nat
  deriving DecidableEq, Repr

/-- The 8-byte big-endian encoding of a request id (`binaryID`,
`peer.go` 74-78, and the context built inside `readIndex`). -/
def binaryID (id : Nat) : List Nat :=
  [id / 2 ^ 56 % 256, id / 2 ^ 48 % 256, id / 2 ^ 40 % 256, id / 2 ^ 32 % 256,
   id / 2 ^ 24 % 256, id / 2 ^ 16 % 256, id / 2 ^ 8 % 256, id % 256]

/-- What one `readIndex` call did besides updating the queue. -/
structure ReadIndexOutcome where
  /-- The returned boolean (`true` means the read was proposed). -/
  proposed : Bool
  /-- The context handed to `RaftGroup.ReadIndex`, when it was called. -/
  consensusCtx : Option (List Nat)
  notifs : List Notif
  /-- Whether the Suspect-lease tail proposed an extra empty normal entry. -/
  proposedExtraEmptyEntry : Bool
  deriving DecidableEq, Repr

/-- The fresh-read tail of `readIndex` (`peer.go` 1468-1502): allocate an
id, call `RaftGroup.ReadIndex` with its 8-byte big-endian encoding; when the
consensus library silently dropped the message (the `dropped` oracle), notify
the callback stale and create no queue entry, otherwise append a new
single-command request; finally, with a Suspect lease, also propose an empty
entry to force a term acknowledgement. -/
def readIndexFresh (s : PeerReadState) (now : Nat) (dropped : Bool)
    (cmd : Nat) (q : ReadIndexQueue) : ReadIndexQueue × ReadIndexOutcome :=
  let id := q.idAllocator + 1
  let q1 : ReadIndexQueue := { q with idAllocator := id }
  let ctx := binaryID id
  if dropped then
    (q1, { proposed := false, consensusCtx := some ctx,
           notifs := [(cmd, RespKind.staleCommand s.term)],
           proposedExtraEmptyEntry := false })
  else
    let q2 : ReadIndexQueue := { q1 with reads := q1.reads ++ [⟨id, [cmd], now⟩] }
    (q2, { proposed := true, consensusCtx := some ctx, notifs := [],
           proposedExtraEmptyEntry :=
             s.leaderLease.inspect now == LeaseState.suspect })

/-- `readIndex` (`peer.go` 1448-1503): reject when splitting or merging;
piggy-back on the last pending read when its renew-lease time plus the
maximum lease is after now; otherwise run the fresh-read tail. -/
def readIndexStep (s : PeerReadState) (maxLease now : Nat) (dropped : Bool)
    (cmd : Nat) (q : ReadIndexQueue) : ReadIndexQueue × ReadIndexOutcome :=
  if isSplitting s || isMerging s then
    (q, { proposed := false, consensusCtx := none,
          notifs := [(cmd, RespKind.readRejected)],
          proposedExtraEmptyEntry := false })
  else
    match q.reads.getLast? with
    | some last =>
        if now < last.renewLeaseTime + maxLease then
          ({ q with reads :=
              q.reads.dropLast ++ [{ last with cmds := last.cmds ++ [cmd] }] },
           { proposed := false, consensusCtx := none, notifs := [],
             proposedExtraEmptyEntry := false })
        else readIndexFresh s now dropped cmd q
    | none => readIndexFresh s now dropped cmd q

/-- Counterexample to claim C5 as stated: a splitting peer
(`lastCommittedSplitIdx = 5 > appliedIndex = 0`) with an empty pending-reads
queue falls in the claim's "otherwise" case, yet `readIndex` rejects before
allocating an id: no consensus read-index call is made and no request is
appended, contradicting the claimed unconditional append. -/
theorem C5_counterexample :
    (readIndexStep ⟨1, 1, 0, 5, 0, false, true, ⟨LeaseBound.valid 10, 3⟩, 5⟩
        3 5 false 42 ⟨0, [], 0⟩).1 = (⟨0, [], 0⟩ : ReadIndexQueue)
    ∧ (readIndexStep ⟨1, 1, 0, 5, 0, false, true, ⟨LeaseBound.valid 10, 3⟩, 5⟩
        3 5 false 42 ⟨0, [], 0⟩).2.consensusCtx = none
    ∧ ([] : List ReadIndexRequest).getLast? = none
    ∧ (readIndexStep ⟨1, 1, 0, 5, 0, false, true, ⟨LeaseBound.valid 10, 3⟩, 5⟩
        3 5 false 42 ⟨0, [], 0⟩).1.reads ≠ [⟨1, [42], 5⟩] := by
  refine ⟨rfl, rfl, rfl, ?_⟩
  intro h
  simp [readIndexStep, isSplitting] at h

/-- Claim C5, amended: provided the peer is neither splitting nor merging,
`readIndex` behaves as claimed: when the queue is non-empty and the last
pending request's renew-lease time plus the maximum lease is after now, the
incoming command is appended to that last request, no consensus call is made,
no new entry is created and the call returns false; otherwise a fresh id is
allocated and `RaftGroup.ReadIndex` is called with its 8-byte big-endian
encoding, and — unless the consensus library silently dropped the message, in
which case the command is answered stale and nothing is appended — a new
single-command request is appended to the queue. -/
theorem C5_read_index_coalescing (s : PeerReadState) (maxLease now : Nat)
    (dropped : Bool) (cmd : Nat) (q : ReadIndexQueue)
    (hsplit : isSplitting s = false) (hmerge : isMerging s = false) :
    (∀ last, q.reads.getLast? = some last →
      now < last.renewLeaseTime + maxLease →
        (readIndexStep s maxLease now dropped cmd q).1.reads
            = q.reads.dropLast ++ [{ last with cmds := last.cmds ++ [cmd] }]
        ∧ (readIndexStep s maxLease now dropped cmd q).1.reads.length
            = q.reads.length
        ∧ (readIndexStep s maxLease now dropped cmd q).1.idAllocator
            = q.idAllocator
        ∧ (readIndexStep s maxLease now dropped cmd q).2.consensusCtx = none
        ∧ (readIndexStep s maxLease now dropped cmd q).2.proposed = false)
    ∧ ((∀ last, q.reads.getLast? = some last →
          ¬(now < last.renewLeaseTime + maxLease)) →
        (readIndexStep s maxLease now dropped cmd q).2.consensusCtx
            = some (binaryID (q.idAllocator + 1))
        ∧ (readIndexStep s maxLease now dropped cmd q).1.idAllocator
            = q.idAllocator + 1
        ∧ (dropped = false →
            (readIndexStep s maxLease now dropped cmd q).1.reads
              = q.reads ++ [⟨q.idAllocator + 1, [cmd], now⟩]
            ∧ (readIndexStep s maxLease now dropped cmd q).2.proposed = true)
        ∧ (dropped = true →
            (readIndexStep s maxLease now dropped cmd q).1.reads = q.reads
            ∧ (readIndexStep s maxLease now dropped cmd q).2.notifs
                = [(cmd, RespKind.staleCommand s.term)]
            ∧ (readIndexStep s maxLease now dropped cmd q).2.proposed
                = false)) := by
  have hg : (isSplitting s || isMerging s) = false := by
    rw [hsplit, hmerge]; rfl
  constructor
  · intro last hlast htime
    have hne : q.reads ≠ [] := by
      intro h0
      rw [h0] at hlast
      simp at hlast
    have hstep : readIndexStep s maxLease now dropped cmd q
        = ({ q with reads :=
              q.reads.dropLast ++ [{ last with cmds := last.cmds ++ [cmd] }] },
           { proposed := false, consensusCtx := none, notifs := [],
             proposedExtraEmptyEntry := false }) := by
      unfold readIndexStep
      rw [hg]
      simp only [Bool.false_eq_true, if_false]
      rw [hlast]
      exact if_pos htime
    rw [hstep]
    refine ⟨rfl, ?_, rfl, rfl, rfl⟩
    have hpos : 0 < q.reads.length := List.length_pos.mpr hne
    simp only [List.length_append, List.length_dropLast, List.length_cons,
      List.length_nil]
    omega
  · intro hnp
    have hstep : readIndexStep s maxLease now dropped cmd q
        = readIndexFresh s now dropped cmd q := by
      unfold readIndexStep
      rw [hg]
      simp only [Bool.false_eq_true, if_false]
      cases hlast : q.reads.getLast? with
      | none => rfl
      | some last => exact if_neg (hnp last hlast)
    rw [hstep]
    unfold readIndexFresh
    cases dropped with
    | false =>
        refine ⟨rfl, rfl, ?_, ?_⟩
        · intro _
          exact ⟨rfl, rfl⟩
        · intro h
          exact absurd h (by decide)
    | true =>
        refine ⟨rfl, rfl, ?_, ?_⟩
        · intro h
          exact absurd h (by decide)
        · intro _
          exact ⟨rfl, rfl, rfl⟩

/-- Witness for the amended C5 at a concrete input: a healthy peer with an
empty queue proposes a fresh read with id 1 and context `binaryID 1`, and
appends the single-command request. -/
theorem C5_read_index_coalescing_witness :
    (readIndexStep ⟨1, 1, 7, 0, 0, false, true, ⟨LeaseBound.valid 10, 3⟩, 5⟩
        3 5 false 42 ⟨0, [], 0⟩).2.consensusCtx = some (binaryID 1)
    ∧ (readIndexStep ⟨1, 1, 7, 0, 0, false, true, ⟨LeaseBound.valid 10, 3⟩, 5⟩
        3 5 false 42 ⟨0, [], 0⟩).1.reads = [⟨1, [42], 5⟩] := by
  have h := (C5_read_index_coalescing
    ⟨1, 1, 7, 0, 0, false, true, ⟨LeaseBound.valid 10, 3⟩, 5⟩
    3 5 false 42 ⟨0, [], 0⟩ rfl rfl).2
    (by intro last hlast; simp at hlast)
  exact ⟨h.1, (h.2.2.1 rfl).1⟩

/-! ### ProposeNormal (`peer.go` 1505-1634)

`rlog.Marshal()` is opaque serialization, so the payload size is the
request's `marshalSize` field.  `RaftGroup.Propose` either advances the next
proposal index or silently drops the message; the `advanced` oracle input
captures which happened.  The raft-log entries between `minIndex` and the
last index, consulted by `preProposePrepareMerge`, are the `gapEntries`
input, each carried as its entry type, payload length and decoded admin
command type. -/

/-- A raft-log entry in the merge gap scan. -/
structure GapEntry where
  index : Nat
  isConfChange : Bool
  dataLen : Nat
  /-- The admin command type of the unmarshalled payload, `none` when the
  payload carries no admin request.  Irrelevant when `dataLen = 0`. -/
  adminCmd : Option AdminCmdType
  deriving DecidableEq, Repr

/-- The domain errors of the normal propose path. -/
inductive ProposeErr
  | mergingMode
  | logGapTooLarge
  | gapContainsConfChange
  | gapContainsAdminRequest
  | gapSizeExceedsLimit
  | entryTooLarge (regionId size : Nat)
  | notLeader (regionId : Nat)
  deriving DecidableEq, Repr

/-- The admin command types tolerated inside the merge gap
(`peer.go` 1552-1557). -/
def allowedGapAdminCmd (t : AdminCmdType) : Bool :=
  t == AdminCmdType.transferLeader || t == AdminCmdType.computeHash
    || t == AdminCmdType.verifyHash || t == AdminCmdType.invalidAdmin

/-- The entry scan of `preProposePrepareMerge` (`peer.go` 1531-1561):
accumulate the payload size, reject conf-change entries and admin requests
that can change the epoch or log gap. -/
def gapScan : List GapEntry → Nat → Except ProposeErr Nat
  | [], acc => Except.ok acc
  | e :: rest, acc =>
      let acc' := acc + e.dataLen
      if e.isConfChange then Except.error ProposeErr.gapContainsConfChange
      else if e.dataLen = 0 then gapScan rest acc'
      else
        match e.adminCmd with
        | none => gapScan rest acc'
        | some t =>
            if allowedGapAdminCmd t then gapScan rest acc'
            else Except.error ProposeErr.gapContainsAdminRequest

/-- `preProposePrepareMerge` (`peer.go` 1521-1569): reject when the log gap
`(minProgress, lastIndex]` is too large (or `minProgress` is 0), when the
gap contains a conf change or a disallowed admin request, or when the gap's
payload size exceeds 90 percent of the entry size limit (the Go float
comparison `entrySize > 0.9 * max` is the exact rational test here). -/
def preProposePrepareMerge (mergeMaxLogGap raftEntryMaxSize lastIndex
    minProgress : Nat) (gapEntries : List GapEntry) : Except ProposeErr Unit :=
  if minProgress = 0 ∨ mergeMaxLogGap < lastIndex - minProgress then
    Except.error ProposeErr.logGapTooLarge
  else
    match gapScan gapEntries 0 with
    | Except.error e => Except.error e
    | Except.ok entrySize =>
        if 9 * raftEntryMaxSize < 10 * entrySize then
          Except.error ProposeErr.gapSizeExceedsLimit
        else Except.ok ()

/-- `getSyncLogFromRequest` (`peer.go` 1857-1869). -/
def getSyncLogFromRequest (req : RaftCmdRequest) : Bool :=
  match req.admin with
  | some a =>
      a.cmdType == AdminCmdType.changePeer || a.cmdType == AdminCmdType.split
        || a.cmdType == AdminCmdType.batchSplit
        || a.cmdType == AdminCmdType.prepareMerge
        || a.cmdType == AdminCmdType.commitMerge
        || a.cmdType == AdminCmdType.rollbackMerge
  | none => req.syncLog

/-- `PrePropose` (`peer.go` 1572-1601): build the proposal context from the
sync-log flag and the Split/BatchSplit command type, and run the
prepare-merge pre-check when the request carries a PrepareMerge. -/
def PrePropose (mergeMaxLogGap raftEntryMaxSize lastIndex minProgress : Nat)
    (gapEntries : List GapEntry) (req : RaftCmdRequest) :
    Except ProposeErr ProposalContext :=
  let ctx0 : ProposalContext := 0
  let ctx1 := if getSyncLogFromRequest req then
      ctx0.insertFlag ProposalContextSyncLog
    else ctx0
  match req.admin with
  | none => Except.ok ctx1
  | some a =>
      let ctx2 := if a.cmdType == AdminCmdType.split
          || a.cmdType == AdminCmdType.batchSplit then
        ctx1.insertFlag ProposalContextSplit
      else ctx1
      if a.hasPrepareMerge then
        match preProposePrepareMerge mergeMaxLogGap raftEntryMaxSize lastIndex
            minProgress gapEntries with
        | Except.error e => Except.error e
        | Except.ok _ => Except.ok (ctx2.insertFlag ProposalContextPrepareMerge)
      else Except.ok ctx2

/-- The admin command type reached through the nil-safe Go getter chain
`GetRaftCmdRequest().GetAdminRequest().GetCmdType()`. -/
def reqAdminCmdType (req : RaftCmdRequest) : AdminCmdType :=
  (req.admin.map AdminRequest.cmdType).getD AdminCmdType.invalidAdmin

/-- `ProposeNormal` (`peer.go` 1603-1634): refuse in merging mode unless
RollbackMerge; run `PrePropose`; fail with EntryTooLarge when the marshalled
payload exceeds the limit; propose, and fail with NotLeader when the next
proposal index did not advance; otherwise return the propose index
(`lastIndex + 1`). -/
def ProposeNormal (regionId : Nat) (hasPendingMergeState : Bool)
    (mergeMaxLogGap raftEntryMaxSize lastIndex minProgress : Nat)
    (gapEntries : List GapEntry) (advanced : Bool) (req : RaftCmdRequest) :
    Except ProposeErr Nat :=
  if hasPendingMergeState
      && !(reqAdminCmdType req == AdminCmdType.rollbackMerge) then
    Except.error ProposeErr.mergingMode
  else
    match PrePropose mergeMaxLogGap raftEntryMaxSize lastIndex minProgress
        gapEntries req with
    | Except.error e => Except.error e
    | Except.ok _ =>
        if raftEntryMaxSize < req.marshalSize then
          Except.error (ProposeErr.entryTooLarge regionId req.marshalSize)
        else if !advanced then Except.error (ProposeErr.notLeader regionId)
        else Except.ok (lastIndex + 1)

/-- Counterexample to claim C6 as stated: a PrepareMerge request on a peer
with no pending merge state, a payload well under the size limit and an
advancing proposal index still fails — the prepare-merge pre-check rejects
it because `minProgress = 0` — so the three claimed error cases are not
exhaustive. -/
theorem C6_counterexample :
    ProposeNormal 1 false 10 100 20 0 [] true
        ⟨some ⟨AdminCmdType.prepareMerge, false, false, true⟩,
         [], true, false, false, 10⟩
      = Except.error ProposeErr.logGapTooLarge
    ∧ ProposeErr.logGapTooLarge ≠ ProposeErr.mergingMode
    ∧ ProposeErr.logGapTooLarge ≠ ProposeErr.entryTooLarge 1 10
    ∧ ProposeErr.logGapTooLarge ≠ ProposeErr.notLeader 1 := by
  refine ⟨rfl, ?_, ?_, ?_⟩ <;> decide

/-- Claim C6, amended: `ProposeNormal` fails without proposing in exactly
these cases, in this order of precedence: the peer has a pending merge state
and the command is not RollbackMerge; the `PrePropose` prepare-merge
pre-check fails (log gap too large or empty progress, conf change or
disallowed admin request in the gap, gap size over 90 percent of the entry
limit); the marshalled payload exceeds `RaftEntryMaxSize` (EntryTooLarge);
the next proposal index did not advance after the consensus propose
(NotLeader); on success it returns the index at which the entry was
proposed. -/
theorem C6_propose_normal_error_cases (regionId : Nat)
    (hasPendingMergeState : Bool)
    (mergeMaxLogGap raftEntryMaxSize lastIndex minProgress : Nat)
    (gapEntries : List GapEntry) (advanced : Bool) (req : RaftCmdRequest) :
    (hasPendingMergeState = true →
      reqAdminCmdType req ≠ AdminCmdType.rollbackMerge →
      ProposeNormal regionId hasPendingMergeState mergeMaxLogGap
          raftEntryMaxSize lastIndex minProgress gapEntries advanced req
        = Except.error ProposeErr.mergingMode)
    ∧ (∀ e, (hasPendingMergeState = true →
          reqAdminCmdType req = AdminCmdType.rollbackMerge) →
        PrePropose mergeMaxLogGap raftEntryMaxSize lastIndex minProgress
            gapEntries req = Except.error e →
        ProposeNormal regionId hasPendingMergeState mergeMaxLogGap
            raftEntryMaxSize lastIndex minProgress gapEntries advanced req
          = Except.error e)
    ∧ (∀ c, (hasPendingMergeState = true →
          reqAdminCmdType req = AdminCmdType.rollbackMerge) →
        PrePropose mergeMaxLogGap raftEntryMaxSize lastIndex minProgress
            gapEntries req = Except.ok c →
        raftEntryMaxSize < req.marshalSize →
        ProposeNormal regionId hasPendingMergeState mergeMaxLogGap
            raftEntryMaxSize lastIndex minProgress gapEntries advanced req
          = Except.error (ProposeErr.entryTooLarge regionId req.marshalSize))
    ∧ (∀ c, (hasPendingMergeState = true →
          reqAdminCmdType req = AdminCmdType.rollbackMerge) →
        PrePropose mergeMaxLogGap raftEntryMaxSize lastIndex minProgress
            gapEntries req = Except.ok c →
        req.marshalSize ≤ raftEntryMaxSize →
        advanced = false →
        ProposeNormal regionId hasPendingMergeState mergeMaxLogGap
            raftEntryMaxSize lastIndex minProgress gapEntries advanced req
          = Except.error (ProposeErr.notLeader regionId))
    ∧ (∀ c, (hasPendingMergeState = true →
          reqAdminCmdType req = AdminCmdType.rollbackMerge) →
        PrePropose mergeMaxLogGap raftEntryMaxSize lastIndex minProgress
            gapEntries req = Except.ok c →
        req.marshalSize ≤ raftEntryMaxSize →
        advanced = true →
        ProposeNormal regionId hasPendingMergeState mergeMaxLogGap
            raftEntryMaxSize lastIndex minProgress gapEntries advanced req
          = Except.ok (lastIndex + 1)) := by
  have hmerge : ∀ (h : (hasPendingMergeState = true →
      reqAdminCmdType req = AdminCmdType.rollbackMerge)),
      (hasPendingMergeState
        && !(reqAdminCmdType req == AdminCmdType.rollbackMerge)) = false := by
    intro h
    cases hp : hasPendingMergeState
    · rfl
    · rw [h hp]
      simp
  refine ⟨?_, ?_, ?_, ?_, ?_⟩
  · intro hp hrb
    unfold ProposeNormal
    have : (hasPendingMergeState
        && !(reqAdminCmdType req == AdminCmdType.rollbackMerge)) = true := by
      rw [hp]
      simpa using hrb
    rw [this]
    rfl
  · intro e h hpre
    unfold ProposeNormal
    rw [hmerge h]
    simp only [Bool.false_eq_true, if_false]
    rw [hpre]
  · intro c h hpre hsize
    unfold ProposeNormal
    rw [hmerge h]
    simp only [Bool.false_eq_true, if_false]
    rw [hpre]
    simp only
    rw [if_pos hsize]
  · intro c h hpre hsize hadv
    unfold ProposeNormal
    rw [hmerge h]
    simp only [Bool.false_eq_true, if_false]
    rw [hpre]
    simp only
    rw [if_neg (by omega), hadv]
    rfl
  · intro c h hpre hsize hadv
    unfold ProposeNormal
    rw [hmerge h]
    simp only [Bool.false_eq_true, if_false]
    rw [hpre]
    simp only
    rw [if_neg (by omega), hadv]
    rfl

/-- Witness for the amended C6 at a concrete input: a plain write proposal
of size 10 against a limit of 100 with an advancing index succeeds with the
propose index `lastIndex + 1 = 21`. -/
theorem C6_propose_normal_error_cases_witness :
    ProposeNormal 1 false 10 100 20 0 [] true
        ⟨none, [CmdType.put], true, false, false, 10⟩
      = Except.ok 21 := by
  have h := (C6_propose_normal_error_cases 1 false 10 100 20 0 [] true
    ⟨none, [CmdType.put], true, false, false, 10⟩).2.2.2.2
  exact h 0 (fun hp => by cases hp) rfl (by decide) rfl

/-! ### Read-index queue operations (`peer.go` 87-125, 1128-1173,
1204-1217) -/

/-- `ReadIndexQueue.PopFront` (`peer.go` 88-95): pops the head, or returns
nil on an empty queue. -/
def queuePopFront (q : ReadIndexQueue) :
    Option ReadIndexRequest × ReadIndexQueue :=
  match q.reads with
  | [] => (none, q)
  | r :: rest => (some r, { q with reads := rest })

/-- The `NotifyStaleReq` responses sent to the dropped requests of
`ClearUncommitted`. -/
def staleNotifs (term : Nat) : List ReadIndexRequest → List Notif
  | [] => []
  | r :: rest =>
      r.cmds.map (fun cb => (cb, RespKind.staleCommand term))
        ++ staleNotifs term rest

/-- `ClearUncommitted` (`peer.go` 116-125): truncate the queue to its ready
prefix and answer every dropped command stale.  Go would panic on the slice
`reads[readyCnt:]` if `readyCnt` exceeded the length, hence the `Option`. -/
def clearUncommitted (term : Nat) (q : ReadIndexQueue) :
    Option (ReadIndexQueue × List Notif) :=
  if q.readyCnt ≤ q.reads.length then
    some ({ q with reads := q.reads.take q.readyCnt },
          staleNotifs term (q.reads.drop q.readyCnt))
  else none

/-- The ready branch of `ApplyReads` (`peer.go` 1131-1146): for each
`ReadState`, pop the queue head (panic when missing), check its 8-byte id
against the echoed `RequestCtx` (panic on mismatch), answer its commands and
remember its renew-lease time. -/
def applyReadsReadyLoop :
    List (List Nat) → ReadIndexQueue → List Notif → Option Nat →
      Option (ReadIndexQueue × List Notif × Option Nat)
  | [], q, acc, pt => some (q, acc, pt)
  | st :: rest, q, acc, _ =>
      match q.reads with
      | [] => none
      | r :: tail =>
          if st = binaryID r.id then
            applyReadsReadyLoop rest { q with reads := tail }
              (acc ++ r.cmds.map (fun cb => (cb, RespKind.applied)))
              (some r.renewLeaseTime)
          else none

/-- The not-ready branch of `ApplyReads` (`peer.go` 1147-1156): for each
`ReadState`, the request at position `readyCnt` (panic when missing) must
match the echoed id, then `readyCnt` advances by one. -/
def applyReadsPendingLoop :
    List (List Nat) → ReadIndexQueue → Option Nat →
      Option (ReadIndexQueue × Option Nat)
  | [], q, pt => some (q, pt)
  | st :: rest, q, _ =>
      match q.reads[q.readyCnt]? with
      | none => none
      | some r =>
          if st = binaryID r.id then
            applyReadsPendingLoop rest { q with readyCnt := q.readyCnt + 1 }
              (some r.renewLeaseTime)
          else none

/-- The queue effect of `ApplyReads` (`peer.go` 1128-1173): one of the two
branches above, then `ClearUncommitted` when the ready's soft state changed.
The trailing lease-renewal step does not touch the queue. -/
def applyReadsQueue (ready softStateChanged : Bool) (term : Nat)
    (states : List (List Nat)) (q : ReadIndexQueue) :
    Option (ReadIndexQueue × List Notif) :=
  match
    (if ready then
      match applyReadsReadyLoop states q [] none with
      | none => none
      | some (q1, acc, _) => some (q1, acc)
    else
      match applyReadsPendingLoop states q none with
      | none => none
      | some (q1, _) => some (q1, [])) with
  | none => none
  | some (q1, acc) =>
      if softStateChanged then
        match clearUncommitted term q1 with
        | none => none
        | some (q2, acc2) => some (q2, acc ++ acc2)
      else some (q1, acc)

/-- The ready-request drain inside `PostApply` (`peer.go` 1204-1215): pop
and answer `n` head requests, panicking when the queue runs out. -/
def drainReady : Nat → List ReadIndexRequest →
    Option (List ReadIndexRequest × List Notif)
  | 0, reads => some (reads, [])
  | _ + 1, [] => none
  | n + 1, r :: rest =>
      match drainReady n rest with
      | none => none
      | some (rs, acc) =>
          some (rs, r.cmds.map (fun cb => (cb, RespKind.applied)) ++ acc)

/-- The pending-reads portion of `PostApply` (`peer.go` 1204-1217): when
`readyCnt > 0` and the peer is ready to handle reads, drain `readyCnt` head
requests and reset `readyCnt` to 0; otherwise leave the queue untouched. -/
def postApplyDrain (ready : Bool) (q : ReadIndexQueue) :
    Option (ReadIndexQueue × List Notif) :=
  if 0 < q.readyCnt ∧ ready = true then
    match drainReady q.readyCnt q.reads with
    | none => none
    | some (rs, acc) => some ({ q with reads := rs, readyCnt := 0 }, acc)
  else some (q, [])

/-- The queue invariant of claim C10. -/
def queueInv (q : ReadIndexQueue) : Prop := q.readyCnt ≤ q.reads.length

theorem applyReadsPendingLoop_spec (states : List (List Nat)) :
    ∀ (q : ReadIndexQueue) (pt0 : Option Nat)
      (out : ReadIndexQueue × Option Nat),
      applyReadsPendingLoop states q pt0 = some out →
      out.1.reads = q.reads ∧ out.1.readyCnt = q.readyCnt + states.length
        ∧ (queueInv q → queueInv out.1) := by
  induction states with
  | nil =>
      intro q pt0 out h
      cases h
      exact ⟨rfl, rfl, fun hq => hq⟩
  | cons st rest ih =>
      intro q pt0 out h
      unfold applyReadsPendingLoop at h
      split at h
      · cases h
      · rename_i r hq
        split at h
        · have hlt : q.readyCnt < q.reads.length :=
            (List.getElem?_eq_some.mp hq).1
          have hrec := ih { q with readyCnt := q.readyCnt + 1 }
            (some r.renewLeaseTime) out h
          refine ⟨hrec.1, ?_, fun _ => ?_⟩
          · have h2 := hrec.2.1
            simp only [List.length_cons]
            simp only at h2
            omega
          · refine hrec.2.2 ?_
            unfold queueInv
            simpa using hlt
        · cases h

theorem applyReadsReadyLoop_spec (states : List (List Nat)) :
    ∀ (q : ReadIndexQueue) (acc0 : List Notif) (pt0 : Option Nat)
      (out : ReadIndexQueue × List Notif × Option Nat),
      applyReadsReadyLoop states q acc0 pt0 = some out →
      out.1.readyCnt = q.readyCnt
        ∧ out.1.reads = q.reads.drop states.length := by
  induction states with
  | nil =>
      intro q acc0 pt0 out h
      cases h
      exact ⟨rfl, rfl⟩
  | cons st rest ih =>
      intro q acc0 pt0 out h
      unfold applyReadsReadyLoop at h
      split at h
      · cases h
      · rename_i r tail hq
        split at h
        · have hrec := ih { q with reads := tail } _ _ out h
          refine ⟨hrec.1, ?_⟩
          rw [hrec.2, hq]
          simp
        · cases h

theorem clearUncommitted_spec (term : Nat) (q : ReadIndexQueue)
    (out : ReadIndexQueue × List Notif)
    (h : clearUncommitted term q = some out) :
    out.1.reads = q.reads.take q.readyCnt
      ∧ out.1.reads.length = min q.readyCnt q.reads.length
      ∧ out.1.readyCnt = q.readyCnt ∧ queueInv out.1 := by
  unfold clearUncommitted at h
  by_cases hle : q.readyCnt ≤ q.reads.length
  · rw [if_pos hle] at h
    cases h
    refine ⟨rfl, ?_, rfl, ?_⟩
    · simp
    · unfold queueInv
      simp
      omega
  · rw [if_neg hle] at h
    cases h

theorem drainReady_drop (n : Nat) :
    ∀ (reads : List ReadIndexRequest)
      (out : List ReadIndexRequest × List Notif),
      drainReady n reads = some out → out.1 = reads.drop n := by
  induction n with
  | zero =>
      intro reads out h
      cases h
      rfl
  | succ m ih =>
      intro reads out h
      cases reads with
      | nil => cases h
      | cons r rest =>
          unfold drainReady at h
          split at h
          · cases h
          · rename_i rs acc hrec
            cases h
            exact ih rest (rs, acc) hrec

theorem drainReady_isSome (n : Nat) :
    ∀ reads : List ReadIndexRequest, n ≤ reads.length →
      (drainReady n reads).isSome = true := by
  induction n with
  | zero => intro reads _; rfl
  | succ m ih =>
      intro reads hle
      cases reads with
      | nil => simp at hle
      | cons r rest =>
          unfold drainReady
          have hs := ih rest (by simpa using hle)
          split
          · rename_i hrec
            rw [hrec] at hs
            simp at hs
          · rfl

/-- Counterexample to claim C10 as stated: starting from a queue satisfying
the invariant (one request, `readyCnt = 1`), `ApplyReads` in the
ready-to-handle-reads branch pops the head without decrementing `readyCnt`,
leaving `readyCnt = 1 > 0 = len(reads)` — the operation does not preserve
the invariant. -/
theorem C10_counterexample :
    queueInv ⟨1, [⟨1, [9], 0⟩], 1⟩
    ∧ applyReadsQueue true false 0 [binaryID 1] ⟨1, [⟨1, [9], 0⟩], 1⟩
        = some (⟨1, [], 1⟩, [(9, RespKind.applied)])
    ∧ ¬queueInv ⟨1, [], 1⟩ := by
  refine ⟨by simp [queueInv], rfl, by simp [queueInv]⟩

/-- Claim C10, amended: `PopFront` on an empty queue returns nil;
`ClearUncommitted` truncates the queue to exactly its first `readyCnt`
elements and preserves the invariant; the not-ready branch of `ApplyReads`
leaves the queue contents unchanged, increments `readyCnt` exactly once per
`ReadState` and only while a request exists at position `readyCnt`, and
preserves the invariant; `ApplyReads` as a whole preserves the invariant
provided its ready-to-handle-reads branch starts with `readyCnt = 0` (which
`PostApply` maintains by draining); and `PostApply`, when it drains, pops
exactly `readyCnt` head requests before resetting `readyCnt` to 0, and its
drain cannot run out of requests while the invariant holds. -/
theorem C10_queue_operations (term : Nat) :
    (∀ q : ReadIndexQueue, q.reads = [] →
      (queuePopFront q).1 = none ∧ (queuePopFront q).2 = q)
    ∧ (∀ (q : ReadIndexQueue) (out : ReadIndexQueue × List Notif),
        queueInv q → clearUncommitted term q = some out →
        out.1.reads = q.reads.take q.readyCnt
          ∧ out.1.reads.length = q.readyCnt
          ∧ out.1.readyCnt = q.readyCnt ∧ queueInv out.1)
    ∧ (∀ (states : List (List Nat)) (q : ReadIndexQueue) (pt0 : Option Nat)
        (out : ReadIndexQueue × Option Nat),
        applyReadsPendingLoop states q pt0 = some out →
        out.1.reads = q.reads
          ∧ out.1.readyCnt = q.readyCnt + states.length
          ∧ (queueInv q → queueInv out.1))
    ∧ (∀ (ready softStateChanged : Bool) (states : List (List Nat))
        (q : ReadIndexQueue) (out : ReadIndexQueue × List Notif),
        applyReadsQueue ready softStateChanged term states q = some out →
        queueInv q → (ready = true → q.readyCnt = 0) → queueInv out.1)
    ∧ (∀ (ready : Bool) (q : ReadIndexQueue)
        (out : ReadIndexQueue × List Notif),
        queueInv q → postApplyDrain ready q = some out →
        queueInv out.1
          ∧ (0 < q.readyCnt → ready = true →
              out.1.readyCnt = 0 ∧ out.1.reads = q.reads.drop q.readyCnt))
    ∧ (∀ q : ReadIndexQueue, queueInv q →
        (postApplyDrain true q).isSome = true) := by
  refine ⟨?_, ?_, ?_, ?_, ?_, ?_⟩
  · intro q hq
    unfold queuePopFront
    rw [hq]
    exact ⟨rfl, rfl⟩
  · intro q out hinv h
    have hspec := clearUncommitted_spec term q out h
    refine ⟨hspec.1, ?_, hspec.2.2.1, hspec.2.2.2⟩
    rw [hspec.2.1]
    exact Nat.min_eq_left hinv
  · intro states q pt0 out h
    exact applyReadsPendingLoop_spec states q pt0 out h
  · intro ready soft states q out h hinv hready
    unfold applyReadsQueue at h
    split at h
    · cases h
    · rename_i q1 acc heq
      have hq1 : queueInv q1 := by
        cases ready with
        | true =>
            rw [if_pos rfl] at heq
            split at heq
            · cases heq
            · rename_i q1' acc' pt' hloop
              have hs := applyReadsReadyLoop_spec states q [] none
                (q1', acc', pt') hloop
              cases heq
              unfold queueInv
              rw [hs.1, hready rfl]
              exact Nat.zero_le _
        | false =>
            rw [if_neg (by decide)] at heq
            split at heq
            · cases heq
            · rename_i q1' pt' hloop
              have hs := (applyReadsPendingLoop_spec states q none
                (q1', pt') hloop).2.2 hinv
              cases heq
              exact hs
      cases soft with
      | false =>
          rw [if_neg (by decide)] at h
          cases h
          exact hq1
      | true =>
          rw [if_pos rfl] at h
          split at h
          · cases h
          · rename_i q2 acc2 hcl
            cases h
            exact (clearUncommitted_spec term q1 (q2, acc2) hcl).2.2.2
  · intro ready q out hinv h
    unfold postApplyDrain at h
    split at h
    · rename_i hc
      split at h
      · cases h
      · rename_i rs acc hdr
        cases h
        have hdrop := drainReady_drop q.readyCnt q.reads (rs, acc) hdr
        simp only at hdrop
        constructor
        · exact Nat.zero_le _
        · intro _ _
          exact ⟨rfl, hdrop⟩
    · rename_i hc
      cases h
      exact ⟨hinv, fun h1 h2 => absurd ⟨h1, h2⟩ hc⟩
  · intro q hinv
    unfold postApplyDrain
    split
    · have hs := drainReady_isSome q.readyCnt q.reads hinv
      split
      · rename_i hdr
        rw [hdr] at hs
        simp at hs
      · rfl
    · rfl

/-- Witness for the amended C10 at concrete inputs: `PopFront` of the empty
queue yields nil, and the not-ready `ApplyReads` branch advances `readyCnt`
from 0 to 1 on a one-request queue whose head id matches, preserving the
invariant. -/
theorem C10_queue_operations_witness :
    (queuePopFront ⟨0, [], 0⟩).1 = none
    ∧ (⟨5, [⟨1, [9], 0⟩], 1⟩ : ReadIndexQueue).reads = [⟨1, [9], 0⟩]
    ∧ queueInv (⟨5, [⟨1, [9], 0⟩], 1⟩ : ReadIndexQueue) := by
  have h1 := (C10_queue_operations 0).1 ⟨0, [], 0⟩ rfl
  have h3 := (C10_queue_operations 0).2.2.1 [binaryID 1] ⟨5, [⟨1, [9], 0⟩], 0⟩
    none (⟨5, [⟨1, [9], 0⟩], 1⟩, some 0) rfl
  exact ⟨h1.1, h3.1, h3.2.2 (by simp [queueInv])⟩
end Raftstore
